import Mathlib

/-!
Verification development for the nv-detector runtime diagnostic library.

The C++ sources are shallowly embedded below:
* the allocation tracker (`memory_detect.cc`, class `MemoryTracker`) together
  with the `realloc` interposer `HookedRealloc`;
* the lock tracker (`lock_detect.cpp`, class `LockTracker`) with its
  acquire-intent / acquire-success / release operations and the depth-first
  deadlock search;
* the PLT patcher (`plthook_elf64.cpp`, `PltHook::ReplaceFunction` and
  `PltHook::Create`).

Conventions of the embedding:
* pointers (`void*`, `pthread_mutex_t*`, `pthread_t`) are modelled as `Nat`,
  with `0` playing the role of the null pointer / the "no owner" thread id;
* `size_t` arithmetic is carried out modulo `2 ^ 64` (`U64` below); `size_t`
  arguments are reduced modulo `2 ^ 64` on entry;
* `std::unordered_map` is modelled as an association list (`lookupA`,
  `insertA`, `eraseA`); `operator[]` on a missing key default-constructs the
  mapped value, which is modelled by `getOr` plus `insertA`;
* `std::unordered_set` is modelled as a duplicate-free list with `setInsert`;
* `backtrace` output is an input of each operation (the captured stack),
  truncated to the fixed maximum depth of 16 frames as in the source;
* external effects (the real `realloc`'s return value, `dlsym`, `mprotect`
  success, the `/proc/self/maps` snapshot) are explicit inputs.
-/

namespace NvDetector

/-- The modulus of `size_t` arithmetic on the target platform (x86-64). -/
def U64 : Nat := 2 ^ 64

/-! ### Association-list model of `std::unordered_map` -/

/-- `unordered_map::find`: the value stored at `key`, if any
(first matching entry). -/
def lookupA {α : Type} : List (Nat × α) → Nat → Option α
  | [], _ => none
  | (k, v) :: rest, key => if k = key then some v else lookupA rest key

/-- `map[key] = value` (also `operator[]` followed by mutation): replace the
value of the first entry with key `key`, or append a fresh entry. -/
def insertA {α : Type} : List (Nat × α) → Nat → α → List (Nat × α)
  | [], k, v => [(k, v)]
  | (k', v') :: rest, k, v =>
    if k' = k then (k, v) :: rest else (k', v') :: insertA rest k v

/-- `unordered_map::erase(key)`: drop the first entry with key `key`. -/
def eraseA {α : Type} : List (Nat × α) → Nat → List (Nat × α)
  | [], _ => []
  | (k', v') :: rest, k => if k' = k then rest else (k', v') :: eraseA rest k

/-- `operator[]` used only for reading a value that may be absent:
the stored value, or the default-constructed one. -/
def getOr {α : Type} (l : List (Nat × α)) (k : Nat) (d : α) : α :=
  (lookupA l k).getD d

/-- `unordered_set::insert`: add an element unless already present. -/
def setInsert (x : Nat) (l : List Nat) : List Nat :=
  if x ∈ l then l else l ++ [x]

theorem lookupA_insertA_self {α : Type} (l : List (Nat × α)) (k : Nat) (v : α) :
    lookupA (insertA l k v) k = some v := by
  induction l with
  | nil => simp [insertA, lookupA]
  | cons kv rest ih =>
    obtain ⟨k', v'⟩ := kv
    by_cases h : k' = k <;> simp [insertA, lookupA, h, ih]

theorem lookupA_insertA_ne {α : Type} (l : List (Nat × α)) (k k' : Nat) (v : α)
    (h : k' ≠ k) : lookupA (insertA l k v) k' = lookupA l k' := by
  induction l with
  | nil => simp [insertA, lookupA, Ne.symm h]
  | cons kv rest ih =>
    obtain ⟨a, b⟩ := kv
    by_cases ha : a = k
    · subst ha
      simp [insertA, lookupA, Ne.symm h]
    · by_cases hk : a = k' <;> simp [insertA, lookupA, ha, hk, ih, h]

theorem lookupA_eq_none_iff {α : Type} (l : List (Nat × α)) (k : Nat) :
    lookupA l k = none ↔ k ∉ l.map Prod.fst := by
  induction l with
  | nil => simp [lookupA]
  | cons kv rest ih =>
    obtain ⟨a, b⟩ := kv
    by_cases h : a = k
    · subst h; simp [lookupA]
    · simp only [lookupA, if_neg h, ih, List.map_cons, List.mem_cons]
      constructor
      · intro h1 h2
        rcases h2 with h2 | h2
        · exact h h2.symm
        · exact h1 h2
      · intro h1 h2
        exact h1 (Or.inr h2)

theorem insertA_of_lookupA_none {α : Type} (l : List (Nat × α)) (k : Nat) (v : α)
    (h : lookupA l k = none) : insertA l k v = l ++ [(k, v)] := by
  induction l with
  | nil => simp [insertA]
  | cons kv rest ih =>
    obtain ⟨a, b⟩ := kv
    by_cases ha : a = k
    · simp [lookupA, ha] at h
    · simp [lookupA, ha] at h
      simp [insertA, ha, ih h]

theorem map_fst_insertA_of_mem {α : Type} (l : List (Nat × α)) (k : Nat) (v w : α)
    (h : lookupA l k = some w) :
    (insertA l k v).map Prod.fst = l.map Prod.fst := by
  induction l with
  | nil => simp [lookupA] at h
  | cons kv rest ih =>
    obtain ⟨a, b⟩ := kv
    by_cases ha : a = k
    · simp [insertA, ha]
    · simp [lookupA, ha] at h
      simp [insertA, ha, ih h]

theorem map_fst_eraseA {α : Type} (l : List (Nat × α)) (k : Nat) :
    (eraseA l k).map Prod.fst = (l.map Prod.fst).erase k := by
  induction l with
  | nil => simp [eraseA]
  | cons kv rest ih =>
    obtain ⟨a, b⟩ := kv
    by_cases ha : a = k
    · subst ha; simp [eraseA, List.erase_cons]
    · simp [eraseA, ha, List.erase_cons, ih]

theorem length_eraseA {α : Type} (l : List (Nat × α)) (k : Nat) (w : α)
    (h : lookupA l k = some w) : (eraseA l k).length + 1 = l.length := by
  induction l with
  | nil => simp [lookupA] at h
  | cons kv rest ih =>
    obtain ⟨a, b⟩ := kv
    by_cases ha : a = k
    · simp [eraseA, ha]
    · simp [lookupA, ha] at h
      simp [eraseA, ha, ih h]

theorem mem_insertA {α : Type} (l : List (Nat × α)) (k : Nat) (v : α) (kv : Nat × α)
    (h : kv ∈ insertA l k v) : kv = (k, v) ∨ kv ∈ l := by
  induction l with
  | nil =>
    simp [insertA] at h
    exact Or.inl h
  | cons a rest ih =>
    obtain ⟨a1, a2⟩ := a
    by_cases ha : a1 = k
    · simp [insertA, ha] at h
      rcases h with h | h
      · exact Or.inl h
      · exact Or.inr (List.mem_cons_of_mem _ h)
    · simp [insertA, ha] at h
      rcases h with h | h
      · exact Or.inr (by simp [h])
      · rcases ih h with h' | h'
        · exact Or.inl h'
        · exact Or.inr (List.mem_cons_of_mem _ h')

theorem mem_eraseA {α : Type} (l : List (Nat × α)) (k : Nat) (kv : Nat × α)
    (h : kv ∈ eraseA l k) : kv ∈ l := by
  induction l with
  | nil => simp [eraseA] at h
  | cons a rest ih =>
    obtain ⟨a1, a2⟩ := a
    by_cases ha : a1 = k
    · simp [eraseA, ha] at h
      exact List.mem_cons_of_mem _ h
    · simp [eraseA, ha] at h
      rcases h with h | h
      · simp [h]
      · exact List.mem_cons_of_mem _ (ih h)

/-! ### The allocation tracker (`memory_detect.cc`, class `MemoryTracker`) -/

/-- `struct AllocationInfo`: byte size and the captured call stack
(`callstack_size` is the length of the stored list). -/
structure AllocationInfo where
  size : Nat
  callstack : List Nat
deriving DecidableEq, Repr

/-- The fields of `MemoryTracker` guarded by `mutex_`: the live-allocation map
and the three `size_t` counters. -/
structure MemState where
  allocations : List (Nat × AllocationInfo)
  total_allocated : Nat
  total_freed : Nat
  active_allocations : Nat
deriving DecidableEq, Repr

/-- The freshly constructed tracker singleton. -/
def initMemState : MemState := ⟨[], 0, 0, 0⟩

/-- `MemoryTracker::RecordAllocation(ptr, size)`: no-op on null; otherwise
capture up to 16 stack frames, store `(ptr ↦ {size, stack})` (overwriting any
stale entry), add `size` to `total_allocated`, increment `active_allocations`.
`stk` is the stack delivered by `backtrace`. -/
def RecordAllocation (ptr size : Nat) (stk : List Nat) (s : MemState) : MemState :=
  if ptr = 0 then s
  else
    let n := size % U64
    { s with
      allocations := insertA s.allocations ptr ⟨n, stk.take 16⟩
      total_allocated := (s.total_allocated + n) % U64
      active_allocations := (s.active_allocations + 1) % U64 }

/-- `MemoryTracker::RecordDeallocation(ptr)`: no-op on null or unknown
pointers; otherwise add the stored size to `total_freed`, decrement
`active_allocations`, erase the entry. -/
def RecordDeallocation (ptr : Nat) (s : MemState) : MemState :=
  if ptr = 0 then s
  else
    match lookupA s.allocations ptr with
    | none => s
    | some info =>
      { s with
        allocations := eraseA s.allocations ptr
        total_freed := (s.total_freed + info.size) % U64
        active_allocations := (s.active_allocations + (U64 - 1)) % U64 }

/-- `MemoryTracker::UpdateAllocationSize(ptr, new_size)`: no-op on null or
unknown pointers; otherwise replace `total_allocated` by
`total_allocated - old_size + new_size` (in `size_t` arithmetic) and overwrite
the stored size and stack. -/
def UpdateAllocationSize (ptr newSize : Nat) (stk : List Nat) (s : MemState) : MemState :=
  if ptr = 0 then s
  else
    match lookupA s.allocations ptr with
    | none => s
    | some info =>
      let n := newSize % U64
      { s with
        allocations := insertA s.allocations ptr ⟨n, stk.take 16⟩
        total_allocated := (s.total_allocated + (U64 - info.size % U64) + n) % U64 }

/-- `HookedRealloc(old_ptr, new_size)` as a function of the pointer returned
by the real `realloc` (`new_ptr`, an external input of the interposer):
if the real call returned null, the interposer returns immediately without
touching the tracker; if it returned the old pointer, update-size; otherwise
record-deallocation of the old pointer followed by record-allocation of the
new one. -/
def HookedRealloc (old_ptr new_size new_ptr : Nat) (stk : List Nat)
    (s : MemState) : MemState :=
  if new_ptr = 0 then s
  else if new_ptr = old_ptr then UpdateAllocationSize new_ptr new_size stk s
  else RecordAllocation new_ptr new_size stk (RecordDeallocation old_ptr s)

/-- Modelled from the spec's words, for comparison with `HookedRealloc`
(claim C1): "the interposer computes the return-address pointer first, then —
if the returned pointer equals the input pointer and is non-null — invokes
update-size; otherwise it emits record-deallocation on the old pointer
followed by record-allocation on the new." -/
def specReallocDispatch (old_ptr new_size new_ptr : Nat) (stk : List Nat)
    (s : MemState) : MemState :=
  if new_ptr = old_ptr ∧ new_ptr ≠ 0 then UpdateAllocationSize new_ptr new_size stk s
  else RecordAllocation new_ptr new_size stk (RecordDeallocation old_ptr s)

/-! ### Operation sequences over the allocation tracker (claim C2) -/

/-- One observed tracker operation, with the stack captured at the call. -/
inductive MemOp where
  | alloc (ptr size : Nat) (stk : List Nat)
  | dealloc (ptr : Nat)
  | update (ptr size : Nat) (stk : List Nat)
deriving DecidableEq, Repr

/-- Dispatch one operation to the tracker. -/
def memStep (s : MemState) : MemOp → MemState
  | .alloc p n stk => RecordAllocation p n stk s
  | .dealloc p => RecordDeallocation p s
  | .update p n stk => UpdateAllocationSize p n stk s

/-- Run a finite operation sequence against the initially empty tracker. -/
def runMemOps (ops : List MemOp) : MemState := ops.foldl memStep initMemState

/-- Modelled from the spec's words (claim C2): the set of "allocations not yet
paired with a free", maintained directly on the sequence of observed
operations — a non-null allocated pointer joins the set, a free removes it,
update-size does not change it. -/
def specLiveStep (l : List Nat) : MemOp → List Nat
  | .alloc p _ _ => if p = 0 then l else if p ∈ l then l else l ++ [p]
  | .dealloc p => if p = 0 then l else l.erase p
  | .update _ _ _ => l

/-- The spec-level live set of a whole operation sequence. -/
def specLiveKeys (ops : List MemOp) : List Nat := ops.foldl specLiveStep []

/-- Sum of the sizes of the records currently in the live map. -/
def liveSum (l : List (Nat × AllocationInfo)) : Nat :=
  (l.map (fun kv => kv.2.size)).sum

/-- A single operation is well formed in state `s` when it does not
record an allocation at an address that is still live (the source calls such
an overwrite "a stale entry, which indicates a missed free"). -/
def wfStepOK (s : MemState) : MemOp → Bool
  | .alloc p _ _ => p == 0 || (lookupA s.allocations p).isNone
  | _ => true

/-- A sequence is well formed from `s` when every operation is well formed in
the state it is applied to. -/
def wfFrom (s : MemState) : List MemOp → Bool
  | [] => true
  | op :: rest => wfStepOK s op && wfFrom (memStep s op) rest

/-- A sequence is well formed when it is well formed from the empty tracker. -/
def wfMemOps (ops : List MemOp) : Bool := wfFrom initMemState ops

/-- The inductive invariant of the allocation tracker: the counters are
`size_t` values, `active_allocations` counts the map entries (modulo `2^64`),
`total_allocated` splits into `total_freed` plus the live sizes
(modulo `2^64`), and every stored size is a `size_t` value. -/
def MemInv (s : MemState) : Prop :=
  s.total_allocated < U64 ∧ s.total_freed < U64 ∧ s.active_allocations < U64 ∧
  s.active_allocations = s.allocations.length % U64 ∧
  s.total_allocated = (s.total_freed + liveSum s.allocations) % U64 ∧
  ∀ kv ∈ s.allocations, kv.2.size < U64

/-! ### The lock tracker (`lock_detect.cpp`, class `LockTracker`) -/

/-- `struct LockInfo`: address, owning thread (0 when none), the intent call
stack, the outgoing wait-for edges, and the acquired flag. -/
structure LockInfo where
  lock_addr : Nat
  owner_thread : Nat
  callstack : List Nat
  waiting_for : List Nat
  acquired : Bool
deriving DecidableEq, Repr

/-- The default-constructed `LockInfo` produced by `unordered_map::operator[]`
on a missing key. -/
def defaultLockInfo : LockInfo := ⟨0, 0, [], [], false⟩

/-- `struct ThreadInfo`: the locks a thread holds (in acquisition order) and
the locks it is waiting on. -/
structure ThreadInfo where
  held_locks : List Nat
  waiting_locks : List Nat
deriving DecidableEq, Repr

/-- The default-constructed `ThreadInfo`. -/
def defaultThreadInfo : ThreadInfo := ⟨[], []⟩

/-- The fields of `LockTracker` guarded by `mutex_`. -/
structure LockState where
  active_locks : List (Nat × LockInfo)
  thread_info : List (Nat × ThreadInfo)
deriving DecidableEq, Repr

/-- The freshly constructed tracker singleton. -/
def initLockState : LockState := ⟨[], []⟩

/-- One iteration of the held-locks loop in `RecordLockAcquire`:
`active_locks_[held_lock].waiting_for.insert(lock_addr)` — note that
`operator[]` default-constructs a record when the held lock has none. -/
def addEdgeToHeld (m : Nat) (locks : List (Nat × LockInfo)) (h : Nat) :
    List (Nat × LockInfo) :=
  let hi := getOr locks h defaultLockInfo
  insertA locks h { hi with waiting_for := setInsert m hi.waiting_for }

/-- `LockTracker::RecordLockAcquire(mutex)` called by thread `tid` with
current stack `stk` (acquire-intent).  If the lock exists and is acquired
(the source does not compare the owner against the calling thread), append
`m` to `tid`'s waiting list and insert `m` into the edge set of every lock in
`tid`'s held list; if the lock is unknown, create its record unacquired with
the captured stack.  The subsequent `DetectDeadlock(m, tid)` call only reads
the maps (every lock it dereferences is present), so it does not change the
state; it is modelled separately by `DetectDeadlock` below. -/
def RecordLockAcquire (tid m : Nat) (stk : List Nat) (s : LockState) : LockState :=
  if m = 0 then s
  else
    match lookupA s.active_locks m with
    | some info =>
      if info.acquired then
        let ti := getOr s.thread_info tid defaultThreadInfo
        let ti' := { ti with waiting_locks := ti.waiting_locks ++ [m] }
        { s with
          thread_info := insertA s.thread_info tid ti'
          active_locks := ti'.held_locks.foldl (addEdgeToHeld m) s.active_locks }
      else s
    | none =>
      { s with active_locks := insertA s.active_locks m ⟨m, 0, stk.take 16, [], false⟩ }

/-- `LockTracker::RecordLockAcquired(mutex)` called by thread `tid`
(acquire-success): only when a record exists, set its owner and acquired
flag, append `m` to `tid`'s held list and remove every occurrence of `m`
from `tid`'s waiting list (`std::erase`). -/
def RecordLockAcquired (tid m : Nat) (s : LockState) : LockState :=
  if m = 0 then s
  else
    match lookupA s.active_locks m with
    | none => s
    | some info =>
      let ti := getOr s.thread_info tid defaultThreadInfo
      { s with
        active_locks := insertA s.active_locks m
          { info with owner_thread := tid, acquired := true }
        thread_info := insertA s.thread_info tid
          { ti with
            held_locks := ti.held_locks ++ [m]
            waiting_locks := ti.waiting_locks.filter (fun x => x != m) } }

/-- `LockTracker::RecordLockRelease(mutex)` called by thread `tid`: erase the
lock record, remove every occurrence of `m` from `tid`'s held list, and drop
`tid`'s thread record when it neither holds nor waits on anything. -/
def RecordLockRelease (tid m : Nat) (s : LockState) : LockState :=
  if m = 0 then s
  else
    let s1 : LockState := { s with active_locks := eraseA s.active_locks m }
    match lookupA s1.thread_info tid with
    | none => s1
    | some ti =>
      let held' := ti.held_locks.filter (fun x => x != m)
      if held' = [] ∧ ti.waiting_locks = [] then
        { s1 with thread_info := eraseA s1.thread_info tid }
      else
        { s1 with thread_info := insertA s1.thread_info tid { ti with held_locks := held' } }

/-- One mutex event observed by the tracker, tagged with the calling thread
(and, for acquire-intent, the captured stack). -/
inductive LockEvent where
  | acquire (tid m : Nat) (stk : List Nat)
  | acquired (tid m : Nat)
  | release (tid m : Nat)
deriving DecidableEq, Repr

/-- Dispatch one event to the tracker. -/
def lockStep (s : LockState) : LockEvent → LockState
  | .acquire t m stk => RecordLockAcquire t m stk s
  | .acquired t m => RecordLockAcquired t m s
  | .release t m => RecordLockRelease t m s

/-- Run a finite event sequence against the initially empty tracker. -/
def runLockEvents (es : List LockEvent) : LockState := es.foldl lockStep initLockState

/-- The held list of thread `t` (empty for unknown threads). -/
def heldOf (s : LockState) (t : Nat) : List Nat :=
  (getOr s.thread_info t defaultThreadInfo).held_locks

/-- The waiting list of thread `t` (empty for unknown threads). -/
def threadWaitingOf (s : LockState) (t : Nat) : List Nat :=
  (getOr s.thread_info t defaultThreadInfo).waiting_locks

/-- The outgoing edge set of lock `m` (empty for unknown locks). -/
def waitingForOf (s : LockState) (m : Nat) : List Nat :=
  (getOr s.active_locks m defaultLockInfo).waiting_for

/-- The wait-for-edge invariant claimed by the spec: every edge `H → M` is
matched by a thread that currently holds `H` and currently waits on `M`. -/
def edgeClaimCheck (s : LockState) : Bool :=
  s.active_locks.all (fun hkv =>
    hkv.2.waiting_for.all (fun m =>
      s.thread_info.any (fun tkv =>
        tkv.2.held_locks.contains hkv.1 && tkv.2.waiting_locks.contains m)))

/-- The inner loop of `DetectDeadlockDFS` over the `waiting_for` edges of the
current lock: edges whose target lock no longer exists are skipped; the first
recursive call that reports a cycle wins; `rec` is the recursive search at
the next depth. -/
def dfsEdges (s : LockState)
    (rec : Nat → Nat → List Nat → List (Nat × Nat) → Option (List (Nat × Nat)))
    (visited : List Nat) (chain : List (Nat × Nat)) :
    List Nat → Option (List (Nat × Nat))
  | [] => none
  | m :: rest =>
    match lookupA s.active_locks m with
    | none => dfsEdges s rec visited chain rest
    | some info =>
      match rec m info.owner_thread visited chain with
      | some out => some out
      | none => dfsEdges s rec visited chain rest

/-- `LockTracker::DetectDeadlockDFS(current_lock, current_thread, visited,
chain)`: re-visiting a thread on the current path closes the chain with the
re-entered pair and reports; otherwise the thread is marked visited, the pair
is pushed, and the edges of the current lock are explored (the C++ version
restores `visited` and `chain` before returning `false`, so the functional
reading with local values is exact).  The explicit `fuel` only bounds the
recursion depth: each nested call inserts a previously unvisited thread into
`visited`, and every thread reachable by the search is the root thread or the
stored owner of some record, so any fuel exceeding the number of lock records
plus one is never exhausted. -/
def DetectDeadlockDFS (s : LockState) :
    Nat → Nat → Nat → List Nat → List (Nat × Nat) → Option (List (Nat × Nat))
  | 0, _, _, _, _ => none
  | fuel + 1, cur, curT, visited, chain =>
    if curT ∈ visited then some (chain ++ [(cur, curT)])
    else
      dfsEdges s (DetectDeadlockDFS s fuel) (curT :: visited)
        (chain ++ [(cur, curT)]) (waitingForOf s cur)

/-- `LockTracker::DetectDeadlock(lock_addr, thread_id)`: run the search with
empty visited set and chain; `some chain` models a reported deadlock with the
printed lock chain. -/
def DetectDeadlock (s : LockState) (root rootT : Nat) : Option (List (Nat × Nat)) :=
  DetectDeadlockDFS s (s.active_locks.length + 2) root rootT [] []

/-- The relation of the claim: thread `t` waits (per its thread record) on a
mutex whose stored owner is `t'`. -/
def waitsOnB (s : LockState) (t t' : Nat) : Bool :=
  (threadWaitingOf s t).any (fun m =>
    match lookupA s.active_locks m with
    | some info => info.owner_thread == t'
    | none => false)

/-- A directed cycle of the `waitsOnB` relation whose vertices all lie in
`ts` (the threads of a reported chain): a path from `t` back to `t` of
length at least one. -/
def ThreadCycleAmong (s : LockState) (ts : List Nat) : Prop :=
  ∃ t l, t ∈ ts ∧ (∀ x ∈ l, x ∈ ts)
    ∧ List.Chain (fun a b => waitsOnB s a b = true) t (l ++ [t])

/-- One step of the stored wait-for graph: the second pair's lock is an
outgoing edge of the first pair's lock, its record exists, and the second
pair's thread is that record's stored owner. -/
def ChainStep (s : LockState) (a b : Nat × Nat) : Prop :=
  b.1 ∈ waitingForOf s a.1
    ∧ ∃ info, lookupA s.active_locks b.1 = some info ∧ info.owner_thread = b.2

/-- `HookedPthreadMutexTrylock`: the interposer forwards to the real trylock
(whose result is the input `result`) and records acquire-success only on 0. -/
def HookedPthreadMutexTrylock (tid m result : Nat) (s : LockState) : LockState :=
  if result = 0 then RecordLockAcquired tid m s else s

/-! ### The PLT patcher (`plthook_elf64.cpp`) -/

/-- `PltHook::ErrorCode`. -/
inductive PltErrorCode where
  | success
  | fileNotFound
  | invalidArgument
  | functionNotFound
  | internalError
  | eofReached
deriving DecidableEq, Repr

/-- The symbol-name comparison of `ReplaceFunction`:
`strncmp(name, funcname, strlen(funcname)) == 0` and the next character of
`name` is the terminator or `'@'`.  C strings are modelled as their
(NUL-free) character lists; `name[strlen(funcname)]` is the terminator
exactly when the lists have equal length. -/
def cMatch (name funcname : List Char) : Bool :=
  funcname.isPrefixOf name
    && (name.length == funcname.length || name[funcname.length]? == some '@')

/-- Modelled from the spec's words, for comparison with `cMatch` (claim C7):
"the stored name equals S exactly, or it equals `S` followed by `@` followed
by a version token". -/
def specMatch (name funcname : List Char) : Prop :=
  name = funcname ∨ ∃ v, name = funcname ++ '@' :: v

/-- One `.rela.plt` entry as seen through `EnumerateSymbols`: whether its
relocation type is `R_X86_64_JUMP_SLOT`, the symbol name read from the
string table, and the GOT word address `base + offset`. -/
structure PltEntry where
  jumpSlot : Bool
  name : List Char
  addr : Nat
deriving DecidableEq, Repr

/-- The process-wide `PltHook::Impl::error_message`, abstracted to which
`SetError` call last wrote it (the formatted text is determined by the tag
and its arguments). -/
inductive ErrMsg where
  | noSuchFunction (funcname : List Char)
  | noProtection (page : Nat)
  | changeProtectionFailed (page : Nat)
  | restoreProtectionFailed (page : Nat)
  | other (tag : Nat)
deriving DecidableEq, Repr

/-- The environment a `ReplaceFunction` call runs in: the enumerated PLT
entries, the `/proc/self/maps` snapshot (start, end, protection triples, with
`PROT_READ/WRITE/EXEC` = 1/2/4), the page size, the result of
`dlsym(RTLD_DEFAULT, funcname)`, which `mprotect(page, prot)` calls succeed,
and the error message stored before the call. -/
structure PltEnv where
  entries : List PltEntry
  regions : List (Nat × Nat × Nat)
  pageSize : Nat
  dlsymResult : Option Nat
  mprotectOk : Nat → Nat → Bool
  prevMsg : ErrMsg

/-- `PltHook::Impl::GetMemoryProtection`: the protection of the first region
containing the address, or 0 ("no known protection") when none does. -/
def GetMemoryProtection : List (Nat × Nat × Nat) → Nat → Nat
  | [], _ => 0
  | (st, en, pr) :: rest, addr =>
    if st ≤ addr ∧ addr < en then pr else GetMemoryProtection rest addr

/-- `addr & ~(page_size - 1)` for the power-of-two page size: the start of
the page containing `addr`. -/
def pageOf (pageSize addr : Nat) : Nat := addr - addr % pageSize

/-- `EnumerateSymbols` yields exactly the entries whose relocation type is
`JUMP_SLOT`, in table order. -/
def enumerateJumpSlots (entries : List PltEntry) : List PltEntry :=
  entries.filter (fun e => e.jumpSlot)

/-- The observable outcome of one `ReplaceFunction` call: the returned error
code, the error message stored afterwards (`GetLastError`), the writes
performed on GOT words, the `mprotect(page, prot)` calls issued in order,
and the value stored through the caller's `oldfunc` slot. -/
structure ReplaceResult where
  code : PltErrorCode
  errMsg : ErrMsg
  gotWrites : List (Nat × Nat)
  mprotCalls : List (Nat × Nat)
  oldOut : Option Nat
deriving DecidableEq, Repr

/-- `PltHook::ReplaceFunction(funcname, newfunc, oldfunc)`: resolve the
symbol through `dlsym` first (failure is function-not-found); scan the
JUMP_SLOT entries for the first name matching `cMatch`; on a match, look up
the page protection (0 is an internal error), widen a non-writable page
(failure is an internal error before any write), store the previously
resolved address and overwrite the GOT word, then restore the original
protection (failure is an internal error after the write); with no matching
entry, function-not-found. -/
def ReplaceFunction (env : PltEnv) (funcname : List Char) (newfunc : Nat) :
    ReplaceResult :=
  match env.dlsymResult with
  | none => ⟨.functionNotFound, .noSuchFunction funcname, [], [], none⟩
  | some original =>
    match (enumerateJumpSlots env.entries).find? (fun e => cMatch e.name funcname) with
    | none => ⟨.functionNotFound, .noSuchFunction funcname, [], [], none⟩
    | some e =>
      let prot := GetMemoryProtection env.regions e.addr
      let page := pageOf env.pageSize e.addr
      if prot = 0 then ⟨.internalError, .noProtection page, [], [], none⟩
      else if prot &&& 2 = 0 then
        if env.mprotectOk page (prot ||| 2) then
          if env.mprotectOk page prot then
            ⟨.success, env.prevMsg, [(e.addr, newfunc)],
              [(page, prot ||| 2), (page, prot)], some original⟩
          else
            ⟨.internalError, .restoreProtectionFailed page, [(e.addr, newfunc)],
              [(page, prot ||| 2), (page, prot)], some original⟩
        else
          ⟨.internalError, .changeProtectionFailed page, [], [(page, prot ||| 2)], none⟩
      else ⟨.success, env.prevMsg, [(e.addr, newfunc)], [], some original⟩

/-- Replay the protection of one page through a trace of `mprotect` calls:
each successful call on that page overwrites the current protection. -/
def replayProt (ok : Nat → Nat → Bool) (base page : Nat)
    (calls : List (Nat × Nat)) : Nat :=
  calls.foldl (fun cur c => if c.1 == page && ok c.1 c.2 then c.2 else cur) base

/-! ### Registration of the main executable (`detector.cpp`, claim C6) -/

/-- Which branch of `PltHook::Create(filename)` runs: the `filename == NULL`
sentinel branch that walks the link-map list to its head, or the
`dlopen(filename, RTLD_LAZY | RTLD_NOLOAD)` branch. -/
inductive CreateBranch where
  | mainSentinel
  | dlopenShared (filename : String)
deriving DecidableEq, Repr

/-- `std::string::c_str()` as handed to `PltHook::Create`: it always yields a
(possibly empty) C string, never the null pointer. -/
def cStrArg (s : String) : Option String := some s

/-- The branch selection at the top of `PltHook::Create`. -/
def createBranch : Option String → CreateBranch
  | none => .mainSentinel
  | some f => .dlopenShared f

/-- `DetectorRegisterMain`: each enabled detector registers the empty path
(`Register("")`, a `std::string()` stored in the hook). -/
def DetectorRegisterMain (regs : List String) : List String := regs ++ [""]

/-- `Start`: each registered hook calls
`PltHook::Create(lib_path_.c_str())`; this is the branch each such call
takes. -/
def startCreateBranches (regs : List String) : List CreateBranch :=
  regs.map (fun p => createBranch (cStrArg p))

theorem lookupA_some_mem {α : Type} (l : List (Nat × α)) (k : Nat) (v : α)
    (h : lookupA l k = some v) : (k, v) ∈ l := by
  induction l with
  | nil => simp [lookupA] at h
  | cons kv rest ih =>
    obtain ⟨a, b⟩ := kv
    by_cases ha : a = k
    · subst ha
      simp [lookupA] at h
      simp [h]
    · simp [lookupA, ha] at h
      exact List.mem_cons_of_mem _ (ih h)

theorem liveSum_cons (a : Nat) (b : AllocationInfo) (rest : List (Nat × AllocationInfo)) :
    liveSum ((a, b) :: rest) = b.size + liveSum rest := by
  simp [liveSum]

theorem liveSum_insertA_none (l : List (Nat × AllocationInfo)) (k : Nat)
    (v : AllocationInfo) (h : lookupA l k = none) :
    liveSum (insertA l k v) = liveSum l + v.size := by
  rw [insertA_of_lookupA_none l k v h]
  simp [liveSum]

theorem liveSum_insertA_some (l : List (Nat × AllocationInfo)) (k : Nat)
    (v w : AllocationInfo) (h : lookupA l k = some w) :
    liveSum (insertA l k v) + w.size = liveSum l + v.size := by
  induction l with
  | nil => simp [lookupA] at h
  | cons kv rest ih =>
    obtain ⟨a, b⟩ := kv
    by_cases ha : a = k
    · simp [lookupA, ha] at h
      subst h
      simp [insertA, ha, liveSum_cons]
      ring
    · simp [lookupA, ha] at h
      have := ih h
      simp [insertA, ha, liveSum_cons]
      omega

theorem liveSum_eraseA (l : List (Nat × AllocationInfo)) (k : Nat)
    (w : AllocationInfo) (h : lookupA l k = some w) :
    liveSum (eraseA l k) + w.size = liveSum l := by
  induction l with
  | nil => simp [lookupA] at h
  | cons kv rest ih =>
    obtain ⟨a, b⟩ := kv
    by_cases ha : a = k
    · simp [lookupA, ha] at h
      subst h
      simp [eraseA, ha, liveSum_cons]
      ring
    · simp [lookupA, ha] at h
      have := ih h
      simp [eraseA, ha, liveSum_cons]
      omega

theorem U64_pos : 0 < U64 := by decide

theorem memStep_preserves (s : MemState) (op : MemOp) (hInv : MemInv s)
    (hwf : wfStepOK s op = true) :
    MemInv (memStep s op) ∧
    (memStep s op).allocations.map Prod.fst
      = specLiveStep (s.allocations.map Prod.fst) op := by
  obtain ⟨hA, hF, hact, hcnt, hsum, hsz⟩ := hInv
  cases op with
  | alloc p n stk =>
    by_cases hp : p = 0
    · subst hp
      refine ⟨⟨hA, hF, hact, hcnt, hsum, hsz⟩, ?_⟩
      simp [memStep, RecordAllocation, specLiveStep]
    · have hlk : lookupA s.allocations p = none := by
        simp only [wfStepOK, Bool.or_eq_true, beq_iff_eq, Option.isNone_iff_eq_none] at hwf
        exact hwf.resolve_left hp
      have hmem : p ∉ s.allocations.map Prod.fst := (lookupA_eq_none_iff _ _).mp hlk
      have hins := insertA_of_lookupA_none s.allocations p
        (⟨n % U64, stk.take 16⟩ : AllocationInfo) hlk
      have hstep : memStep s (MemOp.alloc p n stk)
          = { s with
              allocations := s.allocations ++ [(p, ⟨n % U64, stk.take 16⟩)]
              total_allocated := (s.total_allocated + n % U64) % U64
              active_allocations := (s.active_allocations + 1) % U64 } := by
        simp only [memStep, RecordAllocation, if_neg hp, hins]
      rw [hstep]
      refine ⟨⟨Nat.mod_lt _ U64_pos, hF, Nat.mod_lt _ U64_pos, ?_, ?_, ?_⟩, ?_⟩
      · simp only [List.length_append, List.length_singleton]
        rw [hcnt, Nat.mod_add_mod]
      · have h1 : liveSum (s.allocations ++ [(p, (⟨n % U64, stk.take 16⟩ : AllocationInfo))])
            = liveSum s.allocations + n % U64 := by
          rw [← hins, liveSum_insertA_none _ _ _ hlk]
        simp only [h1]
        rw [hsum, Nat.mod_add_mod, Nat.add_assoc]
      · intro kv hkv
        rcases List.mem_append.mp hkv with h | h
        · exact hsz kv h
        · simp at h
          subst h
          exact Nat.mod_lt _ U64_pos
      · simp only [List.map_append, specLiveStep, if_neg hp, if_neg hmem]
        simp
  | dealloc p =>
    by_cases hp : p = 0
    · subst hp
      refine ⟨⟨hA, hF, hact, hcnt, hsum, hsz⟩, ?_⟩
      simp [memStep, RecordDeallocation, specLiveStep]
    · cases hlk : lookupA s.allocations p with
      | none =>
        have hmem : p ∉ s.allocations.map Prod.fst := (lookupA_eq_none_iff _ _).mp hlk
        have hstep : memStep s (MemOp.dealloc p) = s := by
          simp only [memStep, RecordDeallocation, if_neg hp, hlk]
        rw [hstep]
        refine ⟨⟨hA, hF, hact, hcnt, hsum, hsz⟩, ?_⟩
        simp only [specLiveStep, if_neg hp]
        rw [List.erase_of_not_mem hmem]
      | some info =>
        have hlen := length_eraseA s.allocations p info hlk
        have hS := liveSum_eraseA s.allocations p info hlk
        have hstep : memStep s (MemOp.dealloc p)
            = { s with
                allocations := eraseA s.allocations p
                total_freed := (s.total_freed + info.size) % U64
                active_allocations := (s.active_allocations + (U64 - 1)) % U64 } := by
          simp only [memStep, RecordDeallocation, if_neg hp, hlk]
        rw [hstep]
        refine ⟨⟨hA, Nat.mod_lt _ U64_pos, Nat.mod_lt _ U64_pos, ?_, ?_, ?_⟩, ?_⟩
        · dsimp only
          rw [hcnt, Nat.mod_add_mod]
          have h1 : s.allocations.length + (U64 - 1)
              = (eraseA s.allocations p).length + U64 := by
            have := U64_pos
            omega
          rw [h1, Nat.add_mod_right]
        · dsimp only
          rw [Nat.mod_add_mod, hsum]
          congr 1
          omega
        · intro kv hkv
          exact hsz kv (mem_eraseA _ _ _ hkv)
        · simp only [specLiveStep, if_neg hp]
          exact map_fst_eraseA _ _
  | update p n stk =>
    by_cases hp : p = 0
    · subst hp
      refine ⟨⟨hA, hF, hact, hcnt, hsum, hsz⟩, ?_⟩
      simp [memStep, UpdateAllocationSize, specLiveStep]
    · cases hlk : lookupA s.allocations p with
      | none =>
        have hstep : memStep s (MemOp.update p n stk) = s := by
          simp only [memStep, UpdateAllocationSize, if_neg hp, hlk]
        rw [hstep]
        exact ⟨⟨hA, hF, hact, hcnt, hsum, hsz⟩, rfl⟩
      | some info =>
        have hisz : info.size < U64 := hsz (p, info) (lookupA_some_mem _ _ _ hlk)
        have hmod : info.size % U64 = info.size := Nat.mod_eq_of_lt hisz
        have hS := liveSum_insertA_some s.allocations p
          (⟨n % U64, stk.take 16⟩ : AllocationInfo) info hlk
        dsimp only at hS
        have hkeys := map_fst_insertA_of_mem s.allocations p
          (⟨n % U64, stk.take 16⟩ : AllocationInfo) info hlk
        have hstep : memStep s (MemOp.update p n stk)
            = { s with
                allocations := insertA s.allocations p ⟨n % U64, stk.take 16⟩
                total_allocated :=
                  (s.total_allocated + (U64 - info.size % U64) + n % U64) % U64 } := by
          simp only [memStep, UpdateAllocationSize, if_neg hp, hlk]
        rw [hstep]
        refine ⟨⟨Nat.mod_lt _ U64_pos, hF, hact, ?_, ?_, ?_⟩, ?_⟩
        · dsimp only
          rw [hcnt]
          congr 1
          symm
          calc (insertA s.allocations p
                (⟨n % U64, stk.take 16⟩ : AllocationInfo)).length
              = ((insertA s.allocations p
                  (⟨n % U64, stk.take 16⟩ : AllocationInfo)).map Prod.fst).length := by
                simp
            _ = (s.allocations.map Prod.fst).length := by rw [hkeys]
            _ = s.allocations.length := by simp
        · dsimp only
          rw [hsum, hmod, Nat.add_assoc, Nat.mod_add_mod]
          have h2 : s.total_freed + liveSum s.allocations
                + (U64 - info.size + n % U64)
              = s.total_freed
                + liveSum (insertA s.allocations p
                    (⟨n % U64, stk.take 16⟩ : AllocationInfo)) + U64 := by
            have := hisz
            omega
          rw [h2, Nat.add_mod_right]
        · intro kv hkv
          rcases mem_insertA _ _ _ _ hkv with h | h
          · subst h
            exact Nat.mod_lt _ U64_pos
          · exact hsz kv h
        · simp only [specLiveStep]
          exact hkeys

theorem runFrom_inv (ops : List MemOp) (s : MemState) (hInv : MemInv s)
    (hwf : wfFrom s ops = true) :
    MemInv (ops.foldl memStep s) ∧
    (ops.foldl memStep s).allocations.map Prod.fst
      = ops.foldl specLiveStep (s.allocations.map Prod.fst) := by
  induction ops generalizing s with
  | nil => exact ⟨hInv, rfl⟩
  | cons op rest ih =>
    simp only [wfFrom, Bool.and_eq_true] at hwf
    obtain ⟨hInv', hkeys⟩ := memStep_preserves s op hInv hwf.1
    obtain ⟨hI, hK⟩ := ih (memStep s op) hInv' hwf.2
    refine ⟨hI, ?_⟩
    simp only [List.foldl_cons]
    rw [hK, hkeys]

/-- Claim C1, counterexample: the claim's dispatch ("if the returned pointer
equals `p` and is non-null, update-size; otherwise record-deallocation then
record-allocation") disagrees with `HookedRealloc` when the real `realloc`
returns null on a tracked non-null pointer (as glibc does for
`realloc(p, 0)`): the interposer returns early and records nothing, so `p`'s
record survives, while the claimed dispatch would remove it.  Concretely, with
pointer `1` live of size 5 and the real call returning null. -/
theorem hookedRealloc_null_return_diverges :
    HookedRealloc 1 7 0 [] (RecordAllocation 1 5 [] initMemState)
      ≠ specReallocDispatch 1 7 0 [] (RecordAllocation 1 5 [] initMemState) := by
  decide

/-- Claim C1, amended: whenever the real `realloc` returns a non-null pointer,
`HookedRealloc` implements exactly the claimed dispatch — update-size when the
returned pointer equals the old pointer, record-deallocation of the old
pointer followed by record-allocation of the returned one otherwise
(covering `realloc(null, n)` as a pure allocation and `realloc(p, 0)` when a
fresh pointer is returned); when the real `realloc` returns null the
interposer leaves the tracker unchanged. -/
theorem hookedRealloc_dispatch (old_ptr new_size new_ptr : Nat) (stk : List Nat)
    (s : MemState) :
    (new_ptr ≠ 0 →
      HookedRealloc old_ptr new_size new_ptr stk s
        = specReallocDispatch old_ptr new_size new_ptr stk s)
    ∧ HookedRealloc old_ptr new_size 0 stk s = s := by
  constructor
  · intro h
    by_cases he : new_ptr = old_ptr
    · subst he
      simp [HookedRealloc, specReallocDispatch, h]
    · simp [HookedRealloc, specReallocDispatch, he, h]
  · simp [HookedRealloc]

/-- Witness for `hookedRealloc_dispatch` at a concrete displaced reallocation
(old pointer 1, returned pointer 2) and a concrete failed reallocation. -/
theorem hookedRealloc_dispatch_inst :
    (HookedRealloc 1 7 2 [] (RecordAllocation 1 5 [] initMemState)
      = specReallocDispatch 1 7 2 [] (RecordAllocation 1 5 [] initMemState))
    ∧ HookedRealloc 1 7 0 [] (RecordAllocation 1 5 [] initMemState)
      = RecordAllocation 1 5 [] initMemState :=
  ⟨(hookedRealloc_dispatch 1 7 2 [] (RecordAllocation 1 5 [] initMemState)).1
      (by decide),
   (hookedRealloc_dispatch 1 7 0 [] (RecordAllocation 1 5 [] initMemState)).2⟩

/-- Claim C2, counterexample: for the sequence `alloc(1, 5); alloc(1, 7)` —
legal input for the tracker, which overwrites the stale entry — the counter
`active_allocations` is 2 while the live map has exactly one key, and
`total_allocated - total_freed = 12` while the live sizes sum to 7.  Hence
neither "active equals the number of keys" nor "total_allocated minus
total_freed equals the sum of live sizes" holds for arbitrary sequences. -/
theorem memTracker_stale_overwrite_breaks_claim :
    (runMemOps [.alloc 1 5 [], .alloc 1 7 []]).active_allocations = 2
    ∧ (runMemOps [.alloc 1 5 [], .alloc 1 7 []]).allocations.length = 1
    ∧ (runMemOps [.alloc 1 5 [], .alloc 1 7 []]).active_allocations
        ≠ (runMemOps [.alloc 1 5 [], .alloc 1 7 []]).allocations.length
    ∧ (runMemOps [.alloc 1 5 [], .alloc 1 7 []]).total_allocated
        - (runMemOps [.alloc 1 5 [], .alloc 1 7 []]).total_freed = 12
    ∧ liveSum (runMemOps [.alloc 1 5 [], .alloc 1 7 []]).allocations = 7 := by
  decide

/-- Claim C2, amended: for every finite sequence of record-allocation /
record-deallocation / update-size operations applied to the initially empty
tracker in which no allocation is recorded at a still-live address, the live
map's key list equals the allocations not yet paired with a free, and — in
the `size_t` arithmetic of the counters, i.e. modulo `2^64` —
`active_allocations` equals the number of keys in the map and
`total_allocated` equals `total_freed` plus the sum of the live sizes. -/
theorem memTracker_run_invariants (ops : List MemOp) (h : wfMemOps ops = true) :
    (runMemOps ops).allocations.map Prod.fst = specLiveKeys ops
    ∧ (runMemOps ops).active_allocations = (runMemOps ops).allocations.length % U64
    ∧ (runMemOps ops).total_allocated
        = ((runMemOps ops).total_freed + liveSum (runMemOps ops).allocations) % U64 := by
  have hInit : MemInv initMemState := by
    refine ⟨U64_pos, U64_pos, U64_pos, ?_, ?_, ?_⟩ <;> simp [initMemState, liveSum]
  obtain ⟨hI, hK⟩ := runFrom_inv ops initMemState hInit h
  refine ⟨?_, hI.2.2.2.1, hI.2.2.2.2.1⟩
  simpa [specLiveKeys, initMemState] using hK

/-- Witness for `memTracker_run_invariants` on the concrete sequence
`alloc(1, 5); alloc(2, 3); free(1); realloc-in-place(2 → 10)`. -/
theorem memTracker_run_invariants_inst :
    wfMemOps [.alloc 1 5 [], .alloc 2 3 [], .dealloc 1, .update 2 10 []] = true
    ∧ ((runMemOps [.alloc 1 5 [], .alloc 2 3 [], .dealloc 1, .update 2 10 []]).allocations.map
          Prod.fst
        = specLiveKeys [.alloc 1 5 [], .alloc 2 3 [], .dealloc 1, .update 2 10 []]
      ∧ (runMemOps [.alloc 1 5 [], .alloc 2 3 [], .dealloc 1,
            .update 2 10 []]).active_allocations
        = (runMemOps [.alloc 1 5 [], .alloc 2 3 [], .dealloc 1,
            .update 2 10 []]).allocations.length % U64
      ∧ (runMemOps [.alloc 1 5 [], .alloc 2 3 [], .dealloc 1,
            .update 2 10 []]).total_allocated
        = ((runMemOps [.alloc 1 5 [], .alloc 2 3 [], .dealloc 1,
              .update 2 10 []]).total_freed
            + liveSum (runMemOps [.alloc 1 5 [], .alloc 2 3 [], .dealloc 1,
                .update 2 10 []]).allocations) % U64) :=
  ⟨by decide,
   memTracker_run_invariants [.alloc 1 5 [], .alloc 2 3 [], .dealloc 1, .update 2 10 []]
     (by decide)⟩

/-! ### Helper lemmas for the lock tracker -/

theorem mem_setInsert (x m : Nat) (l : List Nat) :
    x ∈ setInsert m l ↔ x ∈ l ∨ x = m := by
  by_cases hm : m ∈ l
  · simp only [setInsert, if_pos hm]
    constructor
    · exact Or.inl
    · rintro (h | rfl)
      · exact h
      · exact hm
  · simp [setInsert, hm]

theorem lookupA_eraseA_ne {α : Type} (l : List (Nat × α)) (k h : Nat)
    (hne : h ≠ k) : lookupA (eraseA l k) h = lookupA l h := by
  induction l with
  | nil => simp [eraseA]
  | cons kv rest ih =>
    obtain ⟨a, b⟩ := kv
    by_cases ha : a = k
    · subst ha
      simp [eraseA, lookupA, Ne.symm hne]
    · by_cases hh : a = h <;> simp [eraseA, lookupA, ha, hh, hne, ih]

theorem lookupA_eraseA_self {α : Type} (l : List (Nat × α)) (k : Nat)
    (hnd : (l.map Prod.fst).Nodup) : lookupA (eraseA l k) k = none := by
  induction l with
  | nil => simp [eraseA, lookupA]
  | cons kv rest ih =>
    obtain ⟨a, b⟩ := kv
    simp only [List.map_cons, List.nodup_cons] at hnd
    by_cases ha : a = k
    · subst ha
      simp only [eraseA, if_pos rfl]
      exact (lookupA_eq_none_iff rest a).mpr hnd.1
    · simp [eraseA, lookupA, ha, ih hnd.2]

theorem mem_waitingFor_addEdge (m' : Nat) (locks : List (Nat × LockInfo))
    (a h x : Nat) :
    x ∈ (getOr (addEdgeToHeld m' locks a) h defaultLockInfo).waiting_for
      ↔ x ∈ (getOr locks h defaultLockInfo).waiting_for ∨ (h = a ∧ x = m') := by
  by_cases hha : h = a
  · subst hha
    simp only [addEdgeToHeld, getOr, lookupA_insertA_self, Option.getD_some]
    rw [mem_setInsert]
    simp
  · simp [addEdgeToHeld, getOr, lookupA_insertA_ne _ _ _ _ hha, hha]

theorem mem_waitingFor_foldl_addEdge (m' : Nat) (hl : List Nat)
    (locks : List (Nat × LockInfo)) (h x : Nat) :
    x ∈ (getOr (hl.foldl (addEdgeToHeld m') locks) h defaultLockInfo).waiting_for
      ↔ x ∈ (getOr locks h defaultLockInfo).waiting_for ∨ (h ∈ hl ∧ x = m') := by
  induction hl generalizing locks with
  | nil => simp
  | cons a rest ih =>
    simp only [List.foldl_cons]
    rw [ih, mem_waitingFor_addEdge]
    constructor
    · rintro ((hx | ⟨rfl, rfl⟩) | ⟨hr, rfl⟩)
      · exact Or.inl hx
      · exact Or.inr ⟨List.mem_cons_self _ _, rfl⟩
      · exact Or.inr ⟨List.mem_cons_of_mem _ hr, rfl⟩
    · rintro (hx | ⟨hmem, rfl⟩)
      · exact Or.inl (Or.inl hx)
      · rcases List.mem_cons.mp hmem with rfl | hr
        · exact Or.inl (Or.inr ⟨rfl, rfl⟩)
        · exact Or.inr ⟨hr, rfl⟩

/-! ### Claim C3 -/

/-- Claim C3, counterexample: after the event sequence in which thread 1
(holding lock 1) blocks on lock 2 owned by thread 2 — inserting the edge
`1 → 2` — and then thread 2 releases lock 2 and thread 1 re-intends and
acquires it, the edge `1 → 2` is still stored, yet no thread record holds
lock 1 while waiting on lock 2 (thread 1 holds both locks and waits on
nothing). -/
theorem lockTracker_stale_edge_breaks_claim :
    2 ∈ waitingForOf (runLockEvents [.acquire 1 1 [], .acquired 1 1,
        .acquire 2 2 [], .acquired 2 2, .acquire 1 2 [], .release 2 2,
        .acquire 1 2 [], .acquired 1 2]) 1
    ∧ (runLockEvents [.acquire 1 1 [], .acquired 1 1, .acquire 2 2 [],
        .acquired 2 2, .acquire 1 2 [], .release 2 2, .acquire 1 2 [],
        .acquired 1 2]).thread_info.all
        (fun tkv => !(tkv.2.held_locks.contains 1 && tkv.2.waiting_locks.contains 2))
      = true
    ∧ edgeClaimCheck (runLockEvents [.acquire 1 1 [], .acquired 1 1,
        .acquire 2 2 [], .acquired 2 2, .acquire 1 2 [], .release 2 2,
        .acquire 1 2 [], .acquired 1 2]) = false := by
  decide

/-- Claim C3, amended: an edge `H → M` is only ever inserted into a lock
record's outgoing-edge set by an acquire-intent of `M` issued by a thread
that currently holds `H`, and immediately after that event the thread is
waiting on `M`; the edge may outlive this condition (it persists until `H`'s
record is erased), so the invariant holds at insertion time, not at every
later state.  `hnd` states that the lock map has no duplicate keys, which
holds for every reachable tracker state. -/
theorem lock_edge_insertion_sound (s : LockState) (e : LockEvent) (h m : Nat)
    (hnd : (s.active_locks.map Prod.fst).Nodup)
    (hpost : m ∈ waitingForOf (lockStep s e) h)
    (hpre : m ∉ waitingForOf s h) :
    ∃ t stk, e = .acquire t m stk ∧ h ∈ heldOf s t
      ∧ m ∈ threadWaitingOf (lockStep s e) t := by
  cases e with
  | acquire t m' stk =>
    by_cases hm0 : m' = 0
    · subst hm0
      simp only [lockStep, RecordLockAcquire, if_pos rfl] at hpost
      exact absurd hpost hpre
    · cases hlk : lookupA s.active_locks m' with
      | none =>
        simp only [lockStep, RecordLockAcquire, if_neg hm0, hlk] at hpost
        by_cases hhm : h = m'
        · subst hhm
          simp only [waitingForOf, getOr, lookupA_insertA_self, Option.getD_some] at hpost
          simp at hpost
        · simp only [waitingForOf, getOr,
            lookupA_insertA_ne s.active_locks m' h _ hhm] at hpost
          exact absurd hpost hpre
      | some info =>
        by_cases hacq : info.acquired
        · have hpost' :
              m ∈ (getOr ((getOr s.thread_info t defaultThreadInfo).held_locks.foldl
                    (addEdgeToHeld m') s.active_locks) h defaultLockInfo).waiting_for := by
            simpa only [lockStep, RecordLockAcquire, if_neg hm0, hlk, if_pos hacq,
              waitingForOf] using hpost
          rw [mem_waitingFor_foldl_addEdge] at hpost'
          rcases hpost' with hx | ⟨hheld, rfl⟩
          · exact absurd hx hpre
          · refine ⟨t, stk, rfl, hheld, ?_⟩
            simp only [lockStep, RecordLockAcquire, if_neg hm0, hlk, if_pos hacq,
              threadWaitingOf, getOr, lookupA_insertA_self, Option.getD_some]
            simp
        · simp only [lockStep, RecordLockAcquire, if_neg hm0, hlk, if_neg hacq] at hpost
          exact absurd hpost hpre
  | acquired t m' =>
    by_cases hm0 : m' = 0
    · subst hm0
      simp only [lockStep, RecordLockAcquired, if_pos rfl] at hpost
      exact absurd hpost hpre
    · cases hlk : lookupA s.active_locks m' with
      | none =>
        simp only [lockStep, RecordLockAcquired, if_neg hm0, hlk] at hpost
        exact absurd hpost hpre
      | some info =>
        exfalso
        apply hpre
        by_cases hhm : h = m'
        · subst hhm
          simp only [lockStep, RecordLockAcquired, if_neg hm0, hlk, waitingForOf,
            getOr, lookupA_insertA_self, Option.getD_some] at hpost
          simpa [waitingForOf, getOr, hlk] using hpost
        · simpa only [lockStep, RecordLockAcquired, if_neg hm0, hlk, waitingForOf,
            getOr, lookupA_insertA_ne s.active_locks m' h _ hhm] using hpost
  | release t m' =>
    by_cases hm0 : m' = 0
    · subst hm0
      simp only [lockStep, RecordLockRelease, if_pos rfl] at hpost
      exact absurd hpost hpre
    · exfalso
      have hlocks : (lockStep s (.release t m')).active_locks
          = eraseA s.active_locks m' := by
        simp only [lockStep, RecordLockRelease, if_neg hm0]
        cases hti : lookupA s.thread_info t with
        | none => simp [hti]
        | some ti =>
          simp only [hti]
          split <;> rfl
      rw [waitingForOf, hlocks] at hpost
      by_cases hhm : h = m'
      · subst hhm
        rw [getOr, lookupA_eraseA_self s.active_locks h hnd] at hpost
        simp [defaultLockInfo] at hpost
      · rw [getOr, lookupA_eraseA_ne s.active_locks m' h hhm] at hpost
        exact hpre hpost

/-- Witness for `lock_edge_insertion_sound`: in the state where thread 1
holds lock 1 and thread 2 holds lock 2, the acquire-intent of lock 2 by
thread 1 inserts the edge `1 → 2`, and thread 1 indeed holds lock 1 and is
waiting on lock 2 afterwards. -/
theorem lock_edge_insertion_sound_inst :
    ∃ t stk, (LockEvent.acquire 1 2 [] : LockEvent) = .acquire t 2 stk
      ∧ 1 ∈ heldOf (runLockEvents [.acquire 1 1 [], .acquired 1 1,
          .acquire 2 2 [], .acquired 2 2]) t
      ∧ 2 ∈ threadWaitingOf (lockStep (runLockEvents [.acquire 1 1 [],
          .acquired 1 1, .acquire 2 2 [], .acquired 2 2])
          (.acquire 1 2 [])) t :=
  lock_edge_insertion_sound
    (runLockEvents [.acquire 1 1 [], .acquired 1 1, .acquire 2 2 [], .acquired 2 2])
    (.acquire 1 2 []) 1 2 (by decide) (by decide) (by decide)

/-! ### Claim C4 -/

/-- Soundness of the edge loop of the search, given soundness of the
recursive search at the next depth (`hrec`): if the loop reports a chain,
that chain extends the current chain along stored edges and closes a
thread-level cycle. -/
theorem dfsEdges_sound (s : LockState) (fuel : Nat)
    (hrec : ∀ cur curT visited chain out,
      DetectDeadlockDFS s fuel cur curT visited chain = some out →
      (∀ t, t ∈ visited ↔ t ∈ chain.map Prod.snd) →
      List.Chain' (ChainStep s) (chain ++ [(cur, curT)]) →
      List.Chain' (ChainStep s) out
        ∧ (∃ front q, out = front ++ [q] ∧ q.2 ∈ front.map Prod.snd)
        ∧ ∃ ext, out = (chain ++ [(cur, curT)]) ++ ext) :
    ∀ (edges : List Nat) (visited : List Nat) (chain : List (Nat × Nat))
      (lst : Nat × Nat) (out : List (Nat × Nat)),
      dfsEdges s (DetectDeadlockDFS s fuel) visited chain edges = some out →
      (∀ t, t ∈ visited ↔ t ∈ chain.map Prod.snd) →
      chain.getLast? = some lst →
      List.Chain' (ChainStep s) chain →
      (∀ m', m' ∈ edges → m' ∈ waitingForOf s lst.1) →
      List.Chain' (ChainStep s) out
        ∧ (∃ front q, out = front ++ [q] ∧ q.2 ∈ front.map Prod.snd)
        ∧ ∃ ext, out = chain ++ ext := by
  intro edges
  induction edges with
  | nil =>
    intro visited chain lst out hsome
    simp [dfsEdges] at hsome
  | cons m' rest ih =>
    intro visited chain lst out hsome hvis hlast hchain hedges
    simp only [dfsEdges] at hsome
    cases hlk : lookupA s.active_locks m' with
    | none =>
      rw [hlk] at hsome
      dsimp only at hsome
      exact ih visited chain lst out hsome hvis hlast hchain
        (fun x hx => hedges x (List.mem_cons_of_mem _ hx))
    | some info =>
      rw [hlk] at hsome
      dsimp only at hsome
      cases hrecv : DetectDeadlockDFS s fuel m' info.owner_thread visited chain with
      | none =>
        rw [hrecv] at hsome
        dsimp only at hsome
        exact ih visited chain lst out hsome hvis hlast hchain
          (fun x hx => hedges x (List.mem_cons_of_mem _ hx))
      | some out2 =>
        rw [hrecv] at hsome
        dsimp only at hsome
        have hout : out2 = out := by
          simpa using hsome
        subst hout
        have hstep : ChainStep s lst (m', info.owner_thread) :=
          ⟨hedges m' (List.mem_cons_self _ _), info, hlk, rfl⟩
        have hchain' : List.Chain' (ChainStep s)
            (chain ++ [(m', info.owner_thread)]) := by
          refine List.Chain'.append hchain (List.chain'_singleton _) ?_
          intro x hx y hy
          simp only [List.head?_cons, Option.mem_def, Option.some.injEq] at hy
          rw [hlast] at hx
          simp only [Option.mem_def, Option.some.injEq] at hx
          subst hx
          subst hy
          exact hstep
        obtain ⟨hc, hcyc, ext, hext⟩ :=
          hrec m' info.owner_thread visited chain out2 hrecv hvis hchain'
        refine ⟨hc, hcyc, [(m', info.owner_thread)] ++ ext, ?_⟩
        rw [hext, List.append_assoc]

/-- Soundness of `DetectDeadlockDFS` with respect to the stored wait-for
graph: a reported chain extends the current path along stored edges
(each followed entry's thread being the stored owner of its lock) and its
last entry re-visits a thread of the chain before it. -/
theorem DetectDeadlockDFS_sound (s : LockState) :
    ∀ (fuel cur curT : Nat) (visited : List Nat) (chain out : List (Nat × Nat)),
      DetectDeadlockDFS s fuel cur curT visited chain = some out →
      (∀ t, t ∈ visited ↔ t ∈ chain.map Prod.snd) →
      List.Chain' (ChainStep s) (chain ++ [(cur, curT)]) →
      List.Chain' (ChainStep s) out
        ∧ (∃ front q, out = front ++ [q] ∧ q.2 ∈ front.map Prod.snd)
        ∧ ∃ ext, out = (chain ++ [(cur, curT)]) ++ ext := by
  intro fuel
  induction fuel with
  | zero =>
    intro cur curT visited chain out hsome
    simp [DetectDeadlockDFS] at hsome
  | succ f ih =>
    intro cur curT visited chain out hsome hvis hchain
    simp only [DetectDeadlockDFS] at hsome
    by_cases hv : curT ∈ visited
    · rw [if_pos hv] at hsome
      have hout : chain ++ [(cur, curT)] = out := by
        simpa using hsome
      subst hout
      refine ⟨hchain, ⟨chain, (cur, curT), rfl, (hvis curT).mp hv⟩, [], by simp⟩
    · rw [if_neg hv] at hsome
      have hvis' : ∀ t, t ∈ curT :: visited
          ↔ t ∈ (chain ++ [(cur, curT)]).map Prod.snd := by
        intro t
        simp only [List.mem_cons, List.map_append, List.mem_append, hvis t]
        constructor
        · rintro (rfl | h)
          · simp
          · exact Or.inl h
        · rintro (h | h)
          · exact Or.inr h
          · simp at h
            exact Or.inl h
      have hlast : (chain ++ [(cur, curT)]).getLast? = some (cur, curT) :=
        List.getLast?_concat _
      obtain ⟨hc, hcyc, ext, hext⟩ :=
        dfsEdges_sound s f ih (waitingForOf s cur) (curT :: visited)
          (chain ++ [(cur, curT)]) (cur, curT) out hsome hvis' hlast hchain
          (fun m' hm' => hm')
      exact ⟨hc, hcyc, ext, hext⟩

/-- Claim C4, counterexample: after the trace below, lock 1 carries the stale
edge `1 → 2` (left over from an earlier, resolved contention) and the
acquire-intent of lock 1 by thread 2 inserts `2 → 1`; the search rooted at
`(lock 1, thread 2)` then reports the chain `[(1, 2), (2, 2)]`, whose only
thread is 2 — yet thread 2 is waiting only on lock 1, owned by thread 1, so
the threads of the chain form no directed cycle under the claim's
"T waits on the owner of a mutex T is waiting for" relation. -/
theorem detectDeadlock_spurious_cycle :
    DetectDeadlock (runLockEvents [.acquire 1 1 [], .acquired 1 1,
        .acquire 2 2 [], .acquired 2 2, .acquire 1 2 [], .release 2 2,
        .acquire 1 2 [], .acquired 1 2, .release 1 2, .acquire 2 2 [],
        .acquired 2 2, .acquire 2 1 []]) 1 2 = some [(1, 2), (2, 2)]
    ∧ ¬ ThreadCycleAmong (runLockEvents [.acquire 1 1 [], .acquired 1 1,
        .acquire 2 2 [], .acquired 2 2, .acquire 1 2 [], .release 2 2,
        .acquire 1 2 [], .acquired 1 2, .release 1 2, .acquire 2 2 [],
        .acquired 2 2, .acquire 2 1 []]) ([(1, 2), (2, 2)].map Prod.snd) := by
  constructor
  · decide
  · rintro ⟨t, l, ht, hl, hchain⟩
    have ht2 : t = 2 := by
      simp at ht
      exact ht
    subst ht2
    have hfirst : waitsOnB (runLockEvents [.acquire 1 1 [], .acquired 1 1,
        .acquire 2 2 [], .acquired 2 2, .acquire 1 2 [], .release 2 2,
        .acquire 1 2 [], .acquired 1 2, .release 1 2, .acquire 2 2 [],
        .acquired 2 2, .acquire 2 1 []]) 2 2 = true := by
      cases l with
      | nil =>
        simp only [List.nil_append] at hchain
        cases hchain with
        | cons hR _ => exact hR
      | cons b l' =>
        have hb : b = 2 := by
          have := hl b (List.mem_cons_self _ _)
          simp at this
          exact this
        subst hb
        simp only [List.cons_append] at hchain
        cases hchain with
        | cons hR _ => exact hR
    exact absurd hfirst (by decide)

/-- Claim C4, amended: whenever the deadlock search reports a chain, the
chain starts at the searched `(mutex, thread)` pair, consecutive entries
follow edges stored in the tracker's wait-for sets with each followed
entry's thread equal to the stored owner of its mutex, and the final entry
re-visits a thread appearing earlier in the chain — i.e. the report is a
thread-level cycle of the stored graph (which, because edges and owners may
be stale, need not be a cycle of the current held/waiting sets). -/
theorem DetectDeadlock_sound (s : LockState) (root rootT : Nat)
    (out : List (Nat × Nat))
    (h : DetectDeadlock s root rootT = some out) :
    List.Chain' (ChainStep s) out
    ∧ out.head? = some (root, rootT)
    ∧ ∃ front q, out = front ++ [q] ∧ q.2 ∈ front.map Prod.snd := by
  obtain ⟨hc, hcyc, ext, hext⟩ :=
    DetectDeadlockDFS_sound s (s.active_locks.length + 2) root rootT [] [] out h
      (by simp) (by simp)
  refine ⟨hc, ?_, hcyc⟩
  rw [hext]
  simp

/-- Witness for `DetectDeadlock_sound` at the reported chain of the trace of
`detectDeadlock_spurious_cycle`. -/
theorem DetectDeadlock_sound_inst :
    List.Chain' (ChainStep (runLockEvents [.acquire 1 1 [], .acquired 1 1,
        .acquire 2 2 [], .acquired 2 2, .acquire 1 2 [], .release 2 2,
        .acquire 1 2 [], .acquired 1 2, .release 1 2, .acquire 2 2 [],
        .acquired 2 2, .acquire 2 1 []])) [(1, 2), (2, 2)]
    ∧ ([(1, 2), (2, 2)] : List (Nat × Nat)).head? = some (1, 2)
    ∧ ∃ front q, ([(1, 2), (2, 2)] : List (Nat × Nat)) = front ++ [q]
        ∧ q.2 ∈ front.map Prod.snd :=
  DetectDeadlock_sound (runLockEvents [.acquire 1 1 [], .acquired 1 1,
      .acquire 2 2 [], .acquired 2 2, .acquire 1 2 [], .release 2 2,
      .acquire 1 2 [], .acquired 1 2, .release 1 2, .acquire 2 2 [],
      .acquired 2 2, .acquire 2 1 []]) 1 2 [(1, 2), (2, 2)] (by decide)

/-! ### Claim C5 -/

/-- Claim C5, counterexample: after thread 1 has acquired lock 1, a second
acquire-intent of lock 1 *by its own owner* finds the record acquired — the
source never compares the owner against the calling thread — and therefore
mutates the state (it appends lock 1 to thread 1's waiting list and inserts
the self-edge `1 → 1`), while the claim requires the state to be unchanged
in every case other than "acquired by a thread other than T" and
"no record". -/
theorem recordLockAcquire_mutates_on_owner_reacquire :
    lookupA (runLockEvents [.acquire 1 1 [], .acquired 1 1]).active_locks 1
      = some ⟨1, 1, [], [], true⟩
    ∧ RecordLockAcquire 1 1 [] (runLockEvents [.acquire 1 1 [], .acquired 1 1])
      ≠ runLockEvents [.acquire 1 1 [], .acquired 1 1]
    ∧ threadWaitingOf (RecordLockAcquire 1 1 []
        (runLockEvents [.acquire 1 1 [], .acquired 1 1])) 1 = [1] := by
  decide

/-- Claim C5, amended: for every mutex `M` and calling thread `T`: a null `M`
leaves the state unchanged; if a record for `M` exists and is *not* acquired,
the state is unchanged; if no record exists (and `M` is non-null), a fresh
record is appended with `acquired = false` and `T`'s stack (truncated to 16
frames) as the intent stack; and if a record exists and is acquired — by any
thread, the source does not test the owner, so this includes `T` itself —
then `M` is appended to `T`'s waiting list, `T`'s held list is unchanged,
and `M` is inserted into the outgoing-edge set of every mutex in `T`'s held
list (after which the deadlock search, which does not modify the maps, is
run). -/
theorem RecordLockAcquire_cases (tid m : Nat) (stk : List Nat) (s : LockState) :
    (m = 0 → RecordLockAcquire tid m stk s = s)
    ∧ (∀ info, lookupA s.active_locks m = some info → info.acquired = false →
        RecordLockAcquire tid m stk s = s)
    ∧ (m ≠ 0 → lookupA s.active_locks m = none →
        RecordLockAcquire tid m stk s
          = { s with active_locks :=
                s.active_locks ++ [(m, ⟨m, 0, stk.take 16, [], false⟩)] })
    ∧ (∀ info, m ≠ 0 → lookupA s.active_locks m = some info →
        info.acquired = true →
        threadWaitingOf (RecordLockAcquire tid m stk s) tid
            = threadWaitingOf s tid ++ [m]
        ∧ heldOf (RecordLockAcquire tid m stk s) tid = heldOf s tid
        ∧ ∀ h, h ∈ heldOf s tid →
            m ∈ waitingForOf (RecordLockAcquire tid m stk s) h) := by
  refine ⟨?_, ?_, ?_, ?_⟩
  · intro h
    simp [RecordLockAcquire, h]
  · intro info hlk hacq
    simp [RecordLockAcquire, hlk, hacq]
  · intro hm hlk
    simp only [RecordLockAcquire, if_neg hm, hlk]
    rw [insertA_of_lookupA_none _ _ _ hlk]
  · intro info hm hlk hacq
    have hstep : RecordLockAcquire tid m stk s
        = { s with
            thread_info := insertA s.thread_info tid
              { getOr s.thread_info tid defaultThreadInfo with
                waiting_locks :=
                  (getOr s.thread_info tid defaultThreadInfo).waiting_locks ++ [m] }
            active_locks :=
              (getOr s.thread_info tid defaultThreadInfo).held_locks.foldl
                (addEdgeToHeld m) s.active_locks } := by
      simp [RecordLockAcquire, if_neg hm, hlk, hacq]
    refine ⟨?_, ?_, ?_⟩
    · rw [hstep]
      simp [threadWaitingOf, getOr, lookupA_insertA_self]
    · rw [hstep]
      simp [heldOf, getOr, lookupA_insertA_self]
    · intro h hh
      rw [hstep]
      simp only [waitingForOf]
      rw [mem_waitingFor_foldl_addEdge]
      exact Or.inr ⟨hh, rfl⟩

/-- Witness for `RecordLockAcquire_cases`: in the state where thread 1 holds
lock 1 and lock 2 is unknown, instantiating the acquired case at thread 2 /
lock 1 and the fresh-record case at lock 2. -/
theorem RecordLockAcquire_cases_inst :
    (threadWaitingOf (RecordLockAcquire 2 1 []
        (runLockEvents [.acquire 1 1 [], .acquired 1 1])) 2
      = threadWaitingOf (runLockEvents [.acquire 1 1 [], .acquired 1 1]) 2 ++ [1]
    ∧ heldOf (RecordLockAcquire 2 1 []
        (runLockEvents [.acquire 1 1 [], .acquired 1 1])) 2
      = heldOf (runLockEvents [.acquire 1 1 [], .acquired 1 1]) 2
    ∧ ∀ h, h ∈ heldOf (runLockEvents [.acquire 1 1 [], .acquired 1 1]) 2 →
        1 ∈ waitingForOf (RecordLockAcquire 2 1 []
          (runLockEvents [.acquire 1 1 [], .acquired 1 1])) h)
    ∧ RecordLockAcquire 2 2 [] (runLockEvents [.acquire 1 1 [], .acquired 1 1])
      = { runLockEvents [.acquire 1 1 [], .acquired 1 1] with active_locks :=
            (runLockEvents [.acquire 1 1 [], .acquired 1 1]).active_locks
              ++ [(2, ⟨2, 0, [], [], false⟩)] } :=
  ⟨(RecordLockAcquire_cases 2 1 []
      (runLockEvents [.acquire 1 1 [], .acquired 1 1])).2.2.2
      ⟨1, 1, [], [], true⟩ (by decide) (by decide) (by decide),
   (RecordLockAcquire_cases 2 2 []
      (runLockEvents [.acquire 1 1 [], .acquired 1 1])).2.2.1
      (by decide) (by decide)⟩

/-! ### Claim C10 -/

/-- Claim C10: acquire-success on a mutex with no record in the active-lock
map leaves the tracker state entirely unchanged, and consequently a
successful `pthread_mutex_trylock` (which records only acquire-success) on a
mutex that never passed through acquire-intent is never tracked as held —
the trylock interposer is a no-op on such a mutex for every result of the
real trylock. -/
theorem RecordLockAcquired_absent_noop (tid m : Nat) (s : LockState)
    (h : lookupA s.active_locks m = none) :
    RecordLockAcquired tid m s = s
    ∧ ∀ result, HookedPthreadMutexTrylock tid m result s = s := by
  have h1 : RecordLockAcquired tid m s = s := by
    by_cases hm : m = 0 <;> simp [RecordLockAcquired, hm, h]
  refine ⟨h1, fun result => ?_⟩
  by_cases hr : result = 0 <;> simp [HookedPthreadMutexTrylock, hr, h1]

/-- Witness for `RecordLockAcquired_absent_noop`: lock 2 has no record in the
state where thread 1 holds lock 1. -/
theorem RecordLockAcquired_absent_noop_inst :
    RecordLockAcquired 2 2 (runLockEvents [.acquire 1 1 [], .acquired 1 1])
      = runLockEvents [.acquire 1 1 [], .acquired 1 1]
    ∧ HookedPthreadMutexTrylock 2 2 0 (runLockEvents [.acquire 1 1 [], .acquired 1 1])
      = runLockEvents [.acquire 1 1 [], .acquired 1 1] :=
  ⟨(RecordLockAcquired_absent_noop 2 2
      (runLockEvents [.acquire 1 1 [], .acquired 1 1]) (by decide)).1,
   (RecordLockAcquired_absent_noop 2 2
      (runLockEvents [.acquire 1 1 [], .acquired 1 1]) (by decide)).2 0⟩

/-! ### Claim C6 -/

/-- Claim C6, counterexample: registering the main executable stores the
empty path, and `Start` hands `PltHook::Create` the result of
`std::string::c_str()`, which is never the null pointer; the branch taken is
therefore the shared-object `dlopen` branch with filename `""`, not the
null-filename main-executable sentinel branch. -/
theorem registerMain_not_mainSentinel :
    startCreateBranches (DetectorRegisterMain [])
      = [CreateBranch.dlopenShared ""]
    ∧ CreateBranch.dlopenShared "" ≠ CreateBranch.mainSentinel := by
  constructor
  · rfl
  · decide

/-- Claim C6, amended: register-main appends the empty path to the
registration list, and the `PltHook::Create` call that `Start` performs for
it takes the `dlopen("", RTLD_LAZY | RTLD_NOLOAD)` shared-object branch;
no path registered through the driver API can reach the null-filename
main-executable sentinel branch, because `c_str()` never yields the null
pointer.  (On glibc, `dlopen("")` happens to resolve to the main program,
whose link-map name is the empty string, so the main executable's PLT is
still the one patched — but through the shared-object branch.) -/
theorem registerMain_takes_dlopen_branch (regs : List String) :
    startCreateBranches (DetectorRegisterMain regs)
      = startCreateBranches regs ++ [CreateBranch.dlopenShared ""]
    ∧ ∀ p : String, ∃ f, createBranch (cStrArg p) = CreateBranch.dlopenShared f := by
  constructor
  · simp [startCreateBranches, DetectorRegisterMain, cStrArg, createBranch]
  · intro p
    exact ⟨p, rfl⟩

/-! ### Claims C7, C8, C9 -/

theorem isPrefixOf_iff_append (l₁ l₂ : List Char) :
    l₁.isPrefixOf l₂ = true ↔ ∃ t, l₂ = l₁ ++ t := by
  induction l₁ generalizing l₂ with
  | nil => simp [List.isPrefixOf]
  | cons a as ih =>
    cases l₂ with
    | nil => simp [List.isPrefixOf]
    | cons b bs =>
      simp only [List.isPrefixOf, Bool.and_eq_true, beq_iff_eq, ih,
        List.cons_append, List.cons.injEq]
      constructor
      · rintro ⟨rfl, t, rfl⟩
        exact ⟨t, rfl, rfl⟩
      · rintro ⟨t, rfl, rfl⟩
        exact ⟨rfl, t, rfl⟩

/-- The symbol comparison of `ReplaceFunction` declares a match exactly when
the stored name equals the requested one, or equals it followed by `'@'` and
a (possibly empty) version token. -/
theorem cMatch_iff_specMatch (name funcname : List Char) :
    cMatch name funcname = true ↔ specMatch name funcname := by
  unfold cMatch specMatch
  constructor
  · intro h
    simp only [Bool.and_eq_true, Bool.or_eq_true, beq_iff_eq] at h
    obtain ⟨hpre, hrest⟩ := h
    obtain ⟨t, rfl⟩ := (isPrefixOf_iff_append funcname _).mp hpre
    rcases hrest with hlen | hat
    · left
      have ht : t.length = 0 := by
        simp only [List.length_append] at hlen
        omega
      rw [List.length_eq_zero] at ht
      subst ht
      simp
    · right
      rw [List.getElem?_append_right (Nat.le_refl _)] at hat
      simp only [Nat.sub_self] at hat
      cases t with
      | nil => simp at hat
      | cons c cs =>
        simp only [List.getElem?_cons_zero, Option.some.injEq] at hat
        subst hat
        exact ⟨cs, rfl⟩
  · intro h
    simp only [Bool.and_eq_true, Bool.or_eq_true, beq_iff_eq]
    rcases h with rfl | ⟨v, rfl⟩
    · exact ⟨(isPrefixOf_iff_append _ _).mpr ⟨[], by simp⟩, Or.inl rfl⟩
    · refine ⟨(isPrefixOf_iff_append _ _).mpr ⟨'@' :: v, rfl⟩, Or.inr ?_⟩
      rw [List.getElem?_append_right (Nat.le_refl _)]
      simp

/-- Claim C7: a PLT entry matches symbol `S` exactly when its stored name
equals `S` or equals `S` followed by `'@'` and a version token; and when no
JUMP_SLOT entry matches, `ReplaceFunction` returns the function-not-found
code and the stored error message — retrievable afterwards through
`GetLastError` — is the "No such function" message for `S` (this covers both
exits: the failed `dlsym` resolution and the exhausted entry scan set the
same message). -/
theorem ReplaceFunction_match_rule (env : PltEnv) (funcname : List Char)
    (newfunc : Nat) :
    (∀ name, cMatch name funcname = true ↔ specMatch name funcname)
    ∧ ((∀ e ∈ enumerateJumpSlots env.entries, cMatch e.name funcname = false) →
        (ReplaceFunction env funcname newfunc).code = PltErrorCode.functionNotFound
        ∧ (ReplaceFunction env funcname newfunc).errMsg
            = ErrMsg.noSuchFunction funcname) := by
  refine ⟨fun name => cMatch_iff_specMatch name funcname, fun hnone => ?_⟩
  have hfind : (enumerateJumpSlots env.entries).find?
      (fun e => cMatch e.name funcname) = none := by
    rw [List.find?_eq_none]
    intro e he
    simp [hnone e he]
  cases hd : env.dlsymResult with
  | none => simp [ReplaceFunction, hd]
  | some orig => simp [ReplaceFunction, hd, hfind]

/-- Witness for `ReplaceFunction_match_rule`: a PLT holding only `g` is asked
for `f`. -/
theorem ReplaceFunction_match_rule_inst :
    (ReplaceFunction ⟨[⟨true, ['g'], 100⟩], [], 4096, some 7,
        fun _ _ => true, .other 0⟩ ['f'] 5).code = PltErrorCode.functionNotFound
    ∧ (ReplaceFunction ⟨[⟨true, ['g'], 100⟩], [], 4096, some 7,
        fun _ _ => true, .other 0⟩ ['f'] 5).errMsg = ErrMsg.noSuchFunction ['f'] :=
  (ReplaceFunction_match_rule ⟨[⟨true, ['g'], 100⟩], [], 4096, some 7,
      fun _ _ => true, .other 0⟩ ['f'] 5).2 (by decide)

/-- Claim C8: when a matching entry is found but the protection lookup for
the GOT word returns the no-known-protection sentinel 0, or the page is not
writable and the widening `mprotect` fails, `ReplaceFunction` returns the
internal-error code and performs no write to the GOT word. -/
theorem ReplaceFunction_error_paths_no_write (env : PltEnv) (funcname : List Char)
    (newfunc : Nat) (e : PltEntry) (orig : Nat)
    (hd : env.dlsymResult = some orig)
    (hfind : (enumerateJumpSlots env.entries).find?
      (fun x => cMatch x.name funcname) = some e) :
    (GetMemoryProtection env.regions e.addr = 0 →
      (ReplaceFunction env funcname newfunc).code = PltErrorCode.internalError
      ∧ (ReplaceFunction env funcname newfunc).gotWrites = [])
    ∧ (GetMemoryProtection env.regions e.addr ≠ 0 →
       GetMemoryProtection env.regions e.addr &&& 2 = 0 →
       env.mprotectOk (pageOf env.pageSize e.addr)
         (GetMemoryProtection env.regions e.addr ||| 2) = false →
      (ReplaceFunction env funcname newfunc).code = PltErrorCode.internalError
      ∧ (ReplaceFunction env funcname newfunc).gotWrites = []) := by
  constructor
  · intro hprot
    simp [ReplaceFunction, hd, hfind, hprot]
  · intro hnz hnw hfail
    simp [ReplaceFunction, hd, hfind, hnz, hnw, hfail]

/-- Witness for `ReplaceFunction_error_paths_no_write`: an empty maps
snapshot makes the protection lookup return the sentinel 0. -/
theorem ReplaceFunction_error_paths_no_write_inst :
    (ReplaceFunction ⟨[⟨true, ['m'], 100⟩], [], 4096, some 7,
        fun _ _ => true, .other 0⟩ ['m'] 5).code = PltErrorCode.internalError
    ∧ (ReplaceFunction ⟨[⟨true, ['m'], 100⟩], [], 4096, some 7,
        fun _ _ => true, .other 0⟩ ['m'] 5).gotWrites = [] :=
  (ReplaceFunction_error_paths_no_write ⟨[⟨true, ['m'], 100⟩], [], 4096, some 7,
      fun _ _ => true, .other 0⟩ ['m'] 5 ⟨true, ['m'], 100⟩ 7 rfl (by decide)).1 rfl

/-- Claim C9: when `ReplaceFunction` has widened a non-writable page (the
widening `mprotect` succeeded), every return path issues the restoring
`mprotect` to the original protection immediately after the write — the call
trace is exactly widen-then-restore — the call succeeds exactly when the
restoring call does, and on the success return replaying the trace leaves the
page at its original protection. -/
theorem ReplaceFunction_restores_protection (env : PltEnv) (funcname : List Char)
    (newfunc : Nat) (e : PltEntry) (orig prot : Nat)
    (hd : env.dlsymResult = some orig)
    (hfind : (enumerateJumpSlots env.entries).find?
      (fun x => cMatch x.name funcname) = some e)
    (hprot : GetMemoryProtection env.regions e.addr = prot)
    (hnz : prot ≠ 0) (hnw : prot &&& 2 = 0)
    (hwiden : env.mprotectOk (pageOf env.pageSize e.addr) (prot ||| 2) = true) :
    (ReplaceFunction env funcname newfunc).mprotCalls
      = [(pageOf env.pageSize e.addr, prot ||| 2), (pageOf env.pageSize e.addr, prot)]
    ∧ ((ReplaceFunction env funcname newfunc).code = PltErrorCode.success
        ↔ env.mprotectOk (pageOf env.pageSize e.addr) prot = true)
    ∧ ((ReplaceFunction env funcname newfunc).code = PltErrorCode.success →
        replayProt env.mprotectOk prot (pageOf env.pageSize e.addr)
          (ReplaceFunction env funcname newfunc).mprotCalls = prot) := by
  cases hres : env.mprotectOk (pageOf env.pageSize e.addr) prot with
  | true =>
    simp [ReplaceFunction, hd, hfind, hprot, hnz, hnw, hwiden, hres, replayProt]
  | false =>
    simp [ReplaceFunction, hd, hfind, hprot, hnz, hnw, hwiden, hres, replayProt]

/-- Witness for `ReplaceFunction_restores_protection`: a read-only page
(protection 1) is widened to 3 and restored to 1, with every `mprotect`
succeeding. -/
theorem ReplaceFunction_restores_protection_inst :
    (ReplaceFunction ⟨[⟨true, ['m'], 100⟩], [(0, 4096, 1)], 4096, some 7,
        fun _ _ => true, .other 0⟩ ['m'] 5).mprotCalls = [(0, 3), (0, 1)]
    ∧ ((ReplaceFunction ⟨[⟨true, ['m'], 100⟩], [(0, 4096, 1)], 4096, some 7,
        fun _ _ => true, .other 0⟩ ['m'] 5).code = PltErrorCode.success
        ↔ (fun (_ _ : Nat) => true) 0 1 = true)
    ∧ ((ReplaceFunction ⟨[⟨true, ['m'], 100⟩], [(0, 4096, 1)], 4096, some 7,
        fun _ _ => true, .other 0⟩ ['m'] 5).code = PltErrorCode.success →
        replayProt (fun _ _ => true) 1 0
          (ReplaceFunction ⟨[⟨true, ['m'], 100⟩], [(0, 4096, 1)], 4096, some 7,
            fun _ _ => true, .other 0⟩ ['m'] 5).mprotCalls = 1) :=
  ReplaceFunction_restores_protection ⟨[⟨true, ['m'], 100⟩], [(0, 4096, 1)], 4096,
    some 7, fun _ _ => true, .other 0⟩ ['m'] 5 ⟨true, ['m'], 100⟩ 7 1 rfl
    (by decide) (by decide) (by decide) (by decide) rfl

end NvDetector
